import Mathlib

/-!
Shallow embedding of the `ssb_packetstream` decoder (`src/stream.rs`).

The decoder reads a 9-byte header (flag byte, u32 big-endian body length,
i32 big-endian id) followed by the body, from an asynchronous byte source.
The async source is modelled by a `Source`: the byte contents still to be
delivered (`data`) together with a script of read events (`evs`) resolving
the nondeterminism of the scheduler: each read call consumes one event,
which either offers up to `k` bytes (`give k`), suspends (`pend`, the Rust
read returning `Poll::Pending`), or fails with an I/O error (`fail`).
An exhausted script behaves as a source at end of file (reads return zero
bytes). The `recv` async function is embedded as a state machine `RecvFut`
(its suspension points) with a step function `pollRecv`; the `Stream`
implementation (`next`, `poll_next`) is transliterated directly.
-/

deriving instance DecidableEq for Except

namespace SsbPacketStream

/-- A byte, as carried by the wire format. -/
abbrev Byte := Fin 256

/-- One scheduled outcome of a read call on the underlying `AsyncRead` source:
deliver up to `k` bytes, suspend with `Poll::Pending`, or fail with an I/O error. -/
inductive ReadEv where
  | give (k : Nat)
  | pend
  | fail
deriving DecidableEq

/-- The model of the underlying byte source: the bytes it will deliver, and the
script of read-call outcomes. -/
structure Source where
  data : List Byte
  evs : List ReadEv
deriving DecidableEq

/-- Result of a single read call (Rust `r.read(&mut buf)` with `buf.len() = n`). -/
inductive R1 where
  | bytes (bs : List Byte)
  | pending
  | ioerr
deriving DecidableEq

/-- One read call with a buffer of size `n`: consumes one event of the script.
An empty script, and a `give` on exhausted data, deliver zero bytes (end of file). -/
def read1 (src : Source) (n : Nat) : Source × R1 :=
  match src.evs with
  | [] => (src, R1.bytes [])
  | ReadEv.give k :: rest =>
    let m := min n (min k src.data.length)
    (⟨src.data.drop m, rest⟩, R1.bytes (src.data.take m))
  | ReadEv.pend :: rest => (⟨src.data, rest⟩, R1.pending)
  | ReadEv.fail :: rest => (⟨src.data, rest⟩, R1.ioerr)

/-- Outcome of polling a `read_exact` loop: completed with the accumulated bytes,
suspended with the bytes gathered so far and the count still needed, or an error
(either an I/O failure or a zero-byte read, Rust `UnexpectedEof`). -/
inductive RxRes where
  | done (src : Source) (bs : List Byte)
  | pend (src : Source) (acc : List Byte) (rem : Nat)
  | err (src : Source)
deriving DecidableEq

/-- The `futures` `read_exact` loop over our event model: repeatedly read into the
remaining `n`-byte buffer, accumulating onto `acc`; a zero-byte read is an error,
a `pend` event suspends. Each successful iteration consumes one script event,
so the recursion is structural on the script. -/
def readExactPoll : List ReadEv → List Byte → List Byte → Nat → RxRes
  | evs, data, acc, 0 => RxRes.done ⟨data, evs⟩ acc
  | [], data, _acc, _ + 1 => RxRes.err ⟨data, []⟩
  | ReadEv.give k :: rest, data, acc, n + 1 =>
    let m := min (n + 1) (min k data.length)
    if m = 0 then RxRes.err ⟨data, rest⟩
    else readExactPoll rest (data.drop m) (acc ++ data.take m) (n + 1 - m)
  | ReadEv.pend :: rest, data, acc, n + 1 => RxRes.pend ⟨data, rest⟩ acc (n + 1)
  | ReadEv.fail :: rest, data, _acc, _ + 1 => RxRes.err ⟨data, rest⟩

/-- The error enum of `src/stream.rs`. The `std::io::Error` payloads are not
modelled; `Body` keeps its `size` field. -/
inductive Error where
  | Recv
  | Header
  | Body (size : Nat)
  | NoGoodbye
deriving DecidableEq

/-- Modelled from the spec: `Packet` lives in `src/packet.rs`, which is not under
`src/`. Per the spec (sections 3 and 6) a packet carries three classifications
derived from the flag byte by an external pure conversion (`head[0].into()` three
times in `Packet::new`), a signed 32-bit identifier, and an opaque byte body; we
keep the flag byte itself in place of the three derived classifications. -/
structure Packet where
  flag : Byte
  id : Int
  body : List Byte
deriving DecidableEq

/-- Big-endian unsigned 32-bit decode (`BigEndian::read_u32`) of a 4-byte slice. -/
def readU32BE (b : List Byte) : Nat :=
  match b with
  | [b0, b1, b2, b3] => ((b0.val * 256 + b1.val) * 256 + b2.val) * 256 + b3.val
  | _ => 0

/-- Big-endian signed 32-bit decode (`BigEndian::read_i32`) of a 4-byte slice. -/
def readI32BE (b : List Byte) : Int :=
  let n := readU32BE b
  if n < 2147483648 then (n : Int) else (n : Int) - 4294967296

/-- Body length: `BigEndian::read_u32(&head[1..5]) as usize`. -/
def bodyLen (head : List Byte) : Nat :=
  readU32BE ((head.drop 1).take 4)

/-- Packet id: `BigEndian::read_i32(&head[5..])`. -/
def packetId (head : List Byte) : Int :=
  readI32BE (head.drop 5)

/-- The packet built at the end of `recv`:
`Packet::new(head[0].into(), head[0].into(), head[0].into(), id, body)`. -/
def mkPacket (head : List Byte) (body : List Byte) : Packet :=
  { flag := head.getD 0 0, id := packetId head, body := body }

/-- Suspension states of the `recv` async function: at the initial
`r.read(&mut head)`, inside the header `read_exact(&mut head[n..])` (with the
header bytes gathered so far and the count still needed), or inside the body
`read_exact(&mut body)` (with the completed header, body bytes so far, count
still needed). -/
inductive RecvFut where
  | start
  | hdrRest (acc : List Byte) (rem : Nat)
  | bodyRd (head : List Byte) (acc : List Byte) (rem : Nat)
deriving DecidableEq

/-- Continue (or begin) the body `read_exact`; on completion build the packet,
on failure report `Error::Body { size: body_len }`. -/
def contBody (head : List Byte) (src : Source) (acc : List Byte) (rem : Nat) :
    Source × Sum RecvFut (Except Error (Option Packet)) :=
  match readExactPoll src.evs src.data acc rem with
  | RxRes.done s body => (s, Sum.inr (Except.ok (some (mkPacket head body))))
  | RxRes.pend s a r => (s, Sum.inl (RecvFut.bodyRd head a r))
  | RxRes.err s => (s, Sum.inr (Except.error (Error.Body (bodyLen head))))

/-- After the 9 header bytes are complete: an all-zero header is the RPC goodbye
(`Ok(None)`); otherwise read the `body_len`-byte body. -/
def afterHeader (head : List Byte) (src : Source) :
    Source × Sum RecvFut (Except Error (Option Packet)) :=
  if head = List.replicate 9 0 then (src, Sum.inr (Except.ok none))
  else contBody head src [] (bodyLen head)

/-- Continue (or begin) the header `read_exact(&mut head[n..])`; failures are
`Error::Header`. -/
def contHdr (src : Source) (acc : List Byte) (rem : Nat) :
    Source × Sum RecvFut (Except Error (Option Packet)) :=
  match readExactPoll src.evs src.data acc rem with
  | RxRes.done s head => afterHeader head s
  | RxRes.pend s a r => (s, Sum.inl (RecvFut.hdrRest a r))
  | RxRes.err s => (s, Sum.inr (Except.error Error.Header))

/-- One poll of the `recv_move` future: either suspends (left: the updated
suspension state) or completes with `recv`'s result (right). The source is
threaded through, mirroring `recv_move` returning `(r, res)`. From `start`,
`r.read(&mut head)` is issued with the 9-byte header buffer; a zero-byte first
read is `Error::NoGoodbye`, a short first read continues with `read_exact` on
the remaining header bytes. -/
def pollRecv : RecvFut → Source → Source × Sum RecvFut (Except Error (Option Packet))
  | RecvFut.start, src =>
    match read1 src 9 with
    | (s, R1.pending) => (s, Sum.inl RecvFut.start)
    | (s, R1.ioerr) => (s, Sum.inr (Except.error Error.Header))
    | (s, R1.bytes bs) =>
      if bs = [] then (s, Sum.inr (Except.error Error.NoGoodbye))
      else if bs.length < 9 then contHdr s bs (9 - bs.length)
      else afterHeader bs s
  | RecvFut.hdrRest acc rem, src => contHdr src acc rem
  | RecvFut.bodyRd head acc rem, src => contBody head src acc rem

/-- An item of the produced sequence: `Option<Result<Packet, Error>>`. -/
abbrev Item := Option (Except Error Packet)

/-- The `Poll` type of the Rust task model. -/
inductive Poll (α : Type) where
  | pending
  | ready (v : α)
deriving DecidableEq

/-- The decoder state enum. `Waiting` holds the pinned `recv_move` future, which
in this model is its suspension state together with the source it owns. -/
inductive State where
  | Ready (r : Source)
  | Waiting (f : RecvFut) (s : Source)
  | Closed (r : Source)
  | Invalid
deriving DecidableEq

/-- The `Waiting` arm of `next`: poll the in-flight future and map its outcome;
`res.transpose()` sends `Ok(Some(p))` to `Some(Ok(p))`. -/
def nextW (f : RecvFut) (s : Source) : State × Poll Item :=
  match pollRecv f s with
  | (s', Sum.inl f') => (State.Waiting f' s', Poll.pending)
  | (s', Sum.inr (Except.ok none)) => (State.Closed s', Poll.ready none)
  | (s', Sum.inr (Except.error e)) => (State.Closed s', Poll.ready (some (Except.error e)))
  | (s', Sum.inr (Except.ok (some p))) => (State.Ready s', Poll.ready (some (Except.ok p)))

/-- The `next` transition function of `src/stream.rs`. In Rust the `Ready` arm
recurses as `next(State::Waiting(Box::pin(recv_move(r))), cx)`; here that single
recursive call is unfolded into `nextW`, so `next (Ready r)` and
`next (Waiting start r)` are definitionally the same poll of a fresh future.
`Invalid` panics: modelled as `none`. -/
def next : State → Option (State × Poll Item)
  | State.Ready r => some (nextW RecvFut.start r)
  | State.Waiting f s => some (nextW f s)
  | State.Closed r => some (State.Closed r, Poll.ready none)
  | State.Invalid => none

/-- `State::take`: swap the state out for the `Invalid` placeholder, returning
the old state alongside the placeholder left behind. -/
def State.take (s : State) : State × State :=
  (s, State.Invalid)

/-- The decoder. -/
structure PacketStream where
  state : State
deriving DecidableEq

/-- `PacketStream::new`. -/
def PacketStream.new (r : Source) : PacketStream :=
  ⟨State.Ready r⟩

/-- `PacketStream::is_closed` (also `FusedStream::is_terminated`). -/
def is_closed (ps : PacketStream) : Bool :=
  match ps.state with
  | State.Closed _ => true
  | _ => false

/-- `PacketStream::into_inner`: reclaim the source from `Ready` or `Closed`;
the other states panic, modelled as `none`. -/
def into_inner (ps : PacketStream) : Option Source :=
  match (ps.state.take).1 with
  | State.Ready r => some r
  | State.Closed r => some r
  | _ => none

/-- `Stream::poll_next`: take the state out (leaving the `Invalid` placeholder),
run `next`, install the resulting state. `none` models the panic on `Invalid`. -/
def poll_next (ps : PacketStream) : Option (PacketStream × Poll Item) :=
  match next (ps.state.take).1 with
  | none => none
  | some (s', p) => some (⟨s'⟩, p)

/-- Poll the decoder `n` times, collecting the reported items. -/
def polls : Nat → PacketStream → Option (PacketStream × List (Poll Item))
  | 0, ps => some (ps, [])
  | n + 1, ps =>
    match poll_next ps with
    | none => none
    | some (ps', p) =>
      match polls n ps' with
      | none => none
      | some (ps'', l) => some (ps'', p :: l)

/-- A read event that delivers at least one byte when data is available. -/
def isGive1 : ReadEv → Bool
  | ReadEv.give k => decide (1 ≤ k)
  | _ => false

/-- A read event that is not a suspension. -/
def noPend : ReadEv → Bool
  | ReadEv.pend => false
  | _ => true

/-- A read event that delivers between 1 and 8 bytes: a short read, never
enough for the 9-byte header in one go. -/
def isShortGive : ReadEv → Bool
  | ReadEv.give k => decide (1 ≤ k ∧ k ≤ 8)
  | _ => false

/-- The decoder states reachable through the public interface: a fresh decoder,
closed under `poll_next`. -/
inductive Reachable : PacketStream → Prop where
  | init (r : Source) : Reachable (PacketStream.new r)
  | step {ps ps' : PacketStream} {p : Poll Item} :
      Reachable ps → poll_next ps = some (ps', p) → Reachable ps'

/-- Unfolding fact: a successful event of `isGive1` shape. -/
theorem isGive1_iff (e : ReadEv) : isGive1 e = true ↔ ∃ k, e = ReadEv.give k ∧ 1 ≤ k := by
  cases e <;> simp [isGive1]

/-- If every scripted read delivers at least one byte, enough data and enough
events make `readExactPoll` complete, delivering exactly the first `n` data
bytes appended to the accumulator and consuming at most `n` events. -/
theorem readExactPoll_complete :
    ∀ (n : Nat) (evs : List ReadEv) (data acc : List Byte),
    evs.all isGive1 = true → n ≤ data.length → n ≤ evs.length →
    ∃ evs', evs'.all isGive1 = true ∧ evs.length - n ≤ evs'.length ∧
      readExactPoll evs data acc n = RxRes.done ⟨data.drop n, evs'⟩ (acc ++ data.take n) := by
  intro n
  induction n using Nat.strong_induction_on with
  | _ n ih =>
    intro evs data acc hall hd he
    match n, evs with
    | 0, evs =>
      exact ⟨evs, hall, by simp, by simp [readExactPoll]⟩
    | n + 1, [] =>
      exact absurd he (Nat.not_succ_le_zero n)
    | n + 1, e :: rest =>
      have hrest : rest.all isGive1 = true := by
        simp [List.all_eq_true] at hall ⊢
        exact fun x hx => hall.2 x hx
      have hek : isGive1 e = true := by
        simp [List.all_eq_true] at hall
        exact hall.1
      obtain ⟨k, rfl, hk⟩ := (isGive1_iff e).mp hek
      have hdl : n + 1 ≤ data.length := hd
      have hm : min (n + 1) (min k data.length) ≠ 0 := by
        omega
      have hmle : min (n + 1) (min k data.length) ≤ n + 1 := Nat.min_le_left _ _
      have hm1 : 1 ≤ min (n + 1) (min k data.length) := Nat.one_le_iff_ne_zero.mpr hm
      set m := min (n + 1) (min k data.length) with hmdef
      have hlt : n + 1 - m < n + 1 := by omega
      have hrec := ih (n + 1 - m) hlt rest (data.drop m) (acc ++ data.take m) hrest
        (by simp only [List.length_drop]; omega)
        (by simp only [List.length_cons] at he; omega)
      obtain ⟨evs', h1, h2, h3⟩ := hrec
      refine ⟨evs', h1, ?_, ?_⟩
      · simp only [List.length_cons]
        omega
      · have hstep : readExactPoll (ReadEv.give k :: rest) data acc (n + 1)
            = readExactPoll rest (data.drop m) (acc ++ data.take m) (n + 1 - m) := by
          simp only [readExactPoll, ← hmdef, if_neg hm]
        rw [hstep, h3]
        have hdd : (data.drop m).drop (n + 1 - m) = data.drop (n + 1) := by
          rw [List.drop_drop]
          congr 1
          omega
        have htt : (acc ++ data.take m) ++ (data.drop m).take (n + 1 - m)
            = acc ++ data.take (n + 1) := by
          rw [List.append_assoc, ← List.take_add]
          congr 2
          omega
        rw [hdd, htt]

/-- With no suspension events scripted, asking `readExactPoll` for more bytes
than the data holds always ends in an error (I/O failure or zero-byte read). -/
theorem readExactPoll_err :
    ∀ (n : Nat) (evs : List ReadEv) (data acc : List Byte),
    evs.all noPend = true → data.length < n →
    ∃ s, readExactPoll evs data acc n = RxRes.err s := by
  intro n
  induction n using Nat.strong_induction_on with
  | _ n ih =>
    intro evs data acc hnp hd
    match n, evs with
    | 0, evs => omega
    | n + 1, [] => exact ⟨⟨data, []⟩, by simp [readExactPoll]⟩
    | n + 1, ReadEv.give k :: rest =>
      have hrest : rest.all noPend = true := by
        simp [List.all_eq_true] at hnp ⊢
        exact fun x hx => hnp.2 x hx
      by_cases hm : min (n + 1) (min k data.length) = 0
      · exact ⟨⟨data, rest⟩, by simp only [readExactPoll, if_pos hm]⟩
      · set m := min (n + 1) (min k data.length) with hmdef
        have hm1 : 1 ≤ m := Nat.one_le_iff_ne_zero.mpr hm
        have hmd : m ≤ data.length := le_trans (Nat.min_le_right _ _) (Nat.min_le_right _ _)
        have hlt : n + 1 - m < n + 1 := by omega
        obtain ⟨s, hs⟩ := ih (n + 1 - m) hlt rest (data.drop m) (acc ++ data.take m) hrest
          (by simp only [List.length_drop]; omega)
        refine ⟨s, ?_⟩
        simp only [readExactPoll, ← hmdef, if_neg hm]
        exact hs
    | n + 1, ReadEv.pend :: rest =>
      simp [List.all_eq_true, noPend] at hnp
    | n + 1, ReadEv.fail :: rest =>
      exact ⟨⟨data, rest⟩, by simp [readExactPoll]⟩

/-- Header phase: on a source with at least 9 bytes of data and a script of
at least 9 byte-delivering reads, the first poll of `recv` completes the header
(possibly across several short reads) and proceeds with exactly the first 9 data
bytes as the header. -/
theorem pollRecv_start_header (data : List Byte) (evs : List ReadEv)
    (hall : evs.all isGive1 = true) (hd : 9 ≤ data.length) (he : 9 ≤ evs.length) :
    ∃ evs', evs'.all isGive1 = true ∧ evs.length - 9 ≤ evs'.length ∧
      pollRecv RecvFut.start ⟨data, evs⟩ = afterHeader (data.take 9) ⟨data.drop 9, evs'⟩ := by
  match evs with
  | [] => simp at he
  | e :: rest =>
    have hrest : rest.all isGive1 = true := by
      simp [List.all_eq_true] at hall ⊢
      exact fun x hx => hall.2 x hx
    have hek : isGive1 e = true := by
      simp [List.all_eq_true] at hall
      exact hall.1
    obtain ⟨k, rfl, hk⟩ := (isGive1_iff e).mp hek
    have hm1 : 1 ≤ min 9 (min k data.length) := by
      simp only [Nat.one_le_iff_ne_zero, Nat.min_eq_zero_iff]
      omega
    set m := min 9 (min k data.length) with hmdef
    have hm9 : m ≤ 9 := Nat.min_le_left _ _
    have hmd : m ≤ data.length := le_trans (Nat.min_le_right _ _) (Nat.min_le_right _ _)
    have hbs : (data.take m).length = m := by
      simp [List.length_take]
      omega
    have hbsne : ¬(data.take m = []) := by
      intro hnil
      rw [hnil] at hbs
      simp at hbs
      omega
    have hr1 : read1 ⟨data, ReadEv.give k :: rest⟩ 9
        = (⟨data.drop m, rest⟩, R1.bytes (data.take m)) := by
      simp only [read1, ← hmdef]
    by_cases hm9lt : m < 9
    · -- short first read: the header is completed by read_exact
      have hrec := readExactPoll_complete (9 - m) rest (data.drop m) (data.take m) hrest
        (by simp only [List.length_drop]; omega)
        (by simp only [List.length_cons] at he; omega)
      obtain ⟨evs', h1, h2, h3⟩ := hrec
      refine ⟨evs', h1, by simp only [List.length_cons]; omega, ?_⟩
      have hdd : (data.drop m).drop (9 - m) = data.drop 9 := by
        rw [List.drop_drop]
        congr 1
        omega
      have htt : data.take m ++ (data.drop m).take (9 - m) = data.take 9 := by
        rw [← List.take_add]
        congr 1
        omega
      simp only [pollRecv, hr1, if_neg hbsne, hbs, if_pos hm9lt, contHdr, h3, hdd, htt]
    · -- the first read delivered the whole header
      have hmeq : m = 9 := by omega
      refine ⟨rest, hrest, by simp only [List.length_cons]; omega, ?_⟩
      rw [hmeq] at hr1 hbs hbsne
      simp only [pollRecv, hr1, if_neg hbsne, hbs]
      simp

/-- Full decode of one packet: a source whose data starts with a non-goodbye
9-byte header followed by (at least) the declared body, scripted with enough
byte-delivering reads, completes in one poll with the packet carrying the
header id and exactly the declared body bytes. -/
theorem recv_complete
    (flag l0 l1 l2 l3 i0 i1 i2 i3 : Byte) (body extra : List Byte) (evs : List ReadEv)
    (hbody : body.length = readU32BE [l0, l1, l2, l3])
    (hall : evs.all isGive1 = true)
    (he : 9 + readU32BE [l0, l1, l2, l3] ≤ evs.length)
    (hhd : [flag, l0, l1, l2, l3, i0, i1, i2, i3] ≠ List.replicate 9 (0 : Byte)) :
    ∃ s, pollRecv RecvFut.start ⟨[flag, l0, l1, l2, l3, i0, i1, i2, i3] ++ (body ++ extra), evs⟩
      = (s, Sum.inr (Except.ok (some ⟨flag, readI32BE [i0, i1, i2, i3], body⟩))) := by
  set hdr : List Byte := [flag, l0, l1, l2, l3, i0, i1, i2, i3] with hhdr
  have hdl : (hdr ++ (body ++ extra)).length = 9 + (body.length + extra.length) := by
    simp [hhdr]
    omega
  obtain ⟨evs', h1, h2, h3⟩ := pollRecv_start_header (hdr ++ (body ++ extra)) evs hall
    (by rw [hdl]; omega) (by omega)
  have h9 : (9 : Nat) = hdr.length := by simp [hhdr]
  have htk : (hdr ++ (body ++ extra)).take 9 = hdr := by
    rw [h9, List.take_left]
  have hdp : (hdr ++ (body ++ extra)).drop 9 = body ++ extra := by
    rw [h9, List.drop_left]
  rw [htk, hdp] at h3
  have hbl : bodyLen hdr = body.length := by
    rw [hbody, hhdr]
    rfl
  obtain ⟨evs'', g1, g2, g3⟩ := readExactPoll_complete body.length evs' (body ++ extra) [] h1
    (by simp) (by omega)
  refine ⟨⟨(body ++ extra).drop body.length, evs''⟩, ?_⟩
  rw [h3]
  simp only [afterHeader, if_neg hhd, contBody, hbl, g3, List.nil_append]
  have hbt : (body ++ extra).take body.length = body := List.take_left body extra
  rw [hbt]
  simp [mkPacket, packetId, hhdr]

/-- If the data holds at least one but fewer than 9 bytes and the script never
suspends (and its first read delivers at least a byte), the header cannot be
completed: the poll ends with `Error::Header`. -/
theorem recv_short_header (data : List Byte) (k : Nat) (rest : List ReadEv)
    (hk : 1 ≤ k) (h1 : 1 ≤ data.length) (h9 : data.length < 9)
    (hnp : rest.all noPend = true) :
    ∃ s, pollRecv RecvFut.start ⟨data, ReadEv.give k :: rest⟩
      = (s, Sum.inr (Except.error Error.Header)) := by
  have hm1 : 1 ≤ min 9 (min k data.length) := by omega
  set m := min 9 (min k data.length) with hmdef
  have hmd : m ≤ data.length := by omega
  have hm9 : m < 9 := by omega
  have hbs : (data.take m).length = m := by
    simp [List.length_take]
    omega
  have hbsne : ¬(data.take m = []) := by
    intro hnil
    have hlen := congrArg List.length hnil
    rw [hbs] at hlen
    simp at hlen
    omega
  have hr1 : read1 ⟨data, ReadEv.give k :: rest⟩ 9
      = (⟨data.drop m, rest⟩, R1.bytes (data.take m)) := by
    simp only [read1, ← hmdef]
  obtain ⟨s, hs⟩ := readExactPoll_err (9 - m) rest (data.drop m) (data.take m) hnp
    (by simp only [List.length_drop]; omega)
  refine ⟨s, ?_⟩
  simp only [pollRecv, hr1, if_neg hbsne, hbs, if_pos hm9, contHdr, hs]

/-- Once closed, polling any number of times reports only `ready none`, and the
state (source included) never changes. -/
theorem polls_closed (n : Nat) (r : Source) :
    polls n ⟨State.Closed r⟩
      = some (⟨State.Closed r⟩, List.replicate n (Poll.ready (none : Item))) := by
  induction n with
  | zero => rfl
  | succ n ih =>
    simp [polls, poll_next, State.take, next, ih, List.replicate_succ]

/-- The `Waiting` arm never installs the placeholder. -/
theorem nextW_fst_ne_invalid (f : RecvFut) (s : Source) : (nextW f s).1 ≠ State.Invalid := by
  cases hp : pollRecv f s with
  | mk s' r =>
    cases r with
    | inl f' => simp [nextW, hp]
    | inr res =>
      cases res with
      | error e => simp [nextW, hp]
      | ok op => cases op <;> simp [nextW, hp]

/-- Whatever `next` installs is never the placeholder. -/
theorem next_ne_invalid (st st' : State) (p : Poll Item) (h : next st = some (st', p)) :
    st' ≠ State.Invalid := by
  cases st with
  | Ready r =>
    have h2 : nextW RecvFut.start r = (st', p) := by simpa [next] using h
    have h3 : st' = (nextW RecvFut.start r).1 := by rw [h2]
    rw [h3]
    exact nextW_fst_ne_invalid _ _
  | Waiting f s =>
    have h2 : nextW f s = (st', p) := by simpa [next] using h
    have h3 : st' = (nextW f s).1 := by rw [h2]
    rw [h3]
    exact nextW_fst_ne_invalid _ _
  | Closed r =>
    simp only [next, Option.some.injEq, Prod.mk.injEq] at h
    rw [← h.1]
    simp
  | Invalid =>
    simp [next] at h

/-- A `poll_next` success is exactly a `next` success on the taken-out state. -/
theorem poll_next_inv (ps ps' : PacketStream) (p : Poll Item)
    (h : poll_next ps = some (ps', p)) : next ps.state = some (ps'.state, p) := by
  unfold poll_next State.take at h
  cases hn : next ps.state with
  | none =>
    rw [hn] at h
    simp at h
  | some v =>
    rcases v with ⟨s', p'⟩
    rw [hn] at h
    simp only [Option.some.injEq, Prod.mk.injEq] at h
    rw [← h.1, h.2]

/-- Every state reachable through the public interface is a real state, not the
placeholder. -/
theorem reachable_ne_invalid (ps : PacketStream) (h : Reachable ps) :
    ps.state ≠ State.Invalid := by
  induction h with
  | init r => simp [PacketStream.new]
  | step hr hpoll ih =>
    rename_i ps1 ps2 p
    exact next_ne_invalid ps1.state ps2.state p (poll_next_inv ps1 ps2 p hpoll)

/-- On any non-placeholder state, `next` returns (no panic) and installs a
non-placeholder state. -/
theorem next_total_ne_invalid (st : State) (h : st ≠ State.Invalid) :
    ∃ st' p, next st = some (st', p) ∧ st' ≠ State.Invalid := by
  cases st with
  | Ready r =>
    exact ⟨(nextW RecvFut.start r).1, (nextW RecvFut.start r).2, rfl,
      nextW_fst_ne_invalid _ _⟩
  | Waiting f s =>
    exact ⟨(nextW f s).1, (nextW f s).2, rfl, nextW_fst_ne_invalid _ _⟩
  | Closed r =>
    exact ⟨State.Closed r, Poll.ready none, rfl, by simp⟩
  | Invalid =>
    exact absurd rfl h

/-- C1: one call to `next` follows the state machine: from `Ready` it moves the
source into a fresh pending `recv_move` operation and polls it within the same
call (`next (Ready r)` equals `next` on the fresh `Waiting` state); from
`Waiting`, an incomplete poll stays `Waiting` (with the advanced future) and
reports `Pending`; a poll completing with a packet returns to `Ready`, holding
the returned source, and reports the packet. -/
theorem claim_C1 :
    (∀ r, next (State.Ready r) = next (State.Waiting RecvFut.start r))
    ∧ (∀ f s s' f', pollRecv f s = (s', Sum.inl f') →
        next (State.Waiting f s) = some (State.Waiting f' s', Poll.pending))
    ∧ (∀ f s s' p, pollRecv f s = (s', Sum.inr (Except.ok (some p))) →
        next (State.Waiting f s) = some (State.Ready s', Poll.ready (some (Except.ok p)))) := by
  refine ⟨fun r => rfl, ?_, ?_⟩
  · intro f s s' f' h
    simp [next, nextW, h]
  · intro f s s' p h
    simp [next, nextW, h]

/-- Witness for C1: a suspending source stays `Waiting` and reports `Pending`;
a complete packet returns to `Ready` and reports it. -/
theorem claim_C1_witness :
    next (State.Ready ⟨[], [ReadEv.pend]⟩)
      = next (State.Waiting RecvFut.start ⟨[], [ReadEv.pend]⟩)
    ∧ pollRecv RecvFut.start ⟨[], [ReadEv.pend]⟩ = (⟨[], []⟩, Sum.inl RecvFut.start)
    ∧ next (State.Waiting RecvFut.start ⟨[], [ReadEv.pend]⟩)
        = some (State.Waiting RecvFut.start ⟨[], []⟩, Poll.pending)
    ∧ pollRecv RecvFut.start ⟨[1, 0, 0, 0, 0, 0, 0, 0, 7], [ReadEv.give 9, ReadEv.pend]⟩
        = (⟨[], [ReadEv.pend]⟩, Sum.inr (Except.ok (some ⟨1, 7, []⟩)))
    ∧ next (State.Waiting RecvFut.start ⟨[1, 0, 0, 0, 0, 0, 0, 0, 7], [ReadEv.give 9, ReadEv.pend]⟩)
        = some (State.Ready ⟨[], [ReadEv.pend]⟩, Poll.ready (some (Except.ok ⟨1, 7, []⟩))) :=
  ⟨claim_C1.1 _, by decide, claim_C1.2.1 _ _ _ _ (by decide), by decide,
    claim_C1.2.2 _ _ _ _ (by decide)⟩

/-- C2 counterexample: the all-zero 9-byte header satisfies the claim shape
(flag byte 0, body length 0, id 0, followed by at least 0 body bytes) but the
decode attempt succeeds with no packet (the goodbye marker), not with a packet
carrying id 0 and an empty body. -/
theorem claim_C2_counterexample :
    (pollRecv RecvFut.start ⟨List.replicate 9 0, [ReadEv.give 9]⟩).2
      = Sum.inr (Except.ok (none : Option Packet))
    ∧ (Except.ok (none : Option Packet) : Except Error (Option Packet))
        ≠ Except.ok (some ⟨0, readI32BE [0, 0, 0, 0], []⟩) :=
  ⟨by decide, by decide⟩

/-- C2 (amended): for every source whose bytes begin with a 9-byte header that
is not the all-zero goodbye marker (flag byte, u32 big-endian body length L,
i32 big-endian id), followed by at least L body bytes, scripted with reads that
each deliver at least one byte and with at least `9 + L` read events, one decode
attempt succeeds with a packet carrying that id and exactly those L body bytes. -/
theorem claim_C2
    (flag l0 l1 l2 l3 i0 i1 i2 i3 : Byte) (body extra : List Byte) (evs : List ReadEv)
    (hbody : body.length = readU32BE [l0, l1, l2, l3])
    (hall : evs.all isGive1 = true)
    (he : 9 + readU32BE [l0, l1, l2, l3] ≤ evs.length)
    (hhd : [flag, l0, l1, l2, l3, i0, i1, i2, i3] ≠ List.replicate 9 (0 : Byte)) :
    ∃ s, pollRecv RecvFut.start ⟨[flag, l0, l1, l2, l3, i0, i1, i2, i3] ++ (body ++ extra), evs⟩
      = (s, Sum.inr (Except.ok (some ⟨flag, readI32BE [i0, i1, i2, i3], body⟩))) :=
  recv_complete flag l0 l1 l2 l3 i0 i1 i2 i3 body extra evs hbody hall he hhd

/-- Witness for C2, on the spec scenario
`[flagByte, 0,0,0,5, 0,0,0x30,0x39] ++ [1,2,3,4,5]`: id 12345, body
`[1,2,3,4,5]`. -/
theorem claim_C2_witness :
    ([1, 2, 3, 4, 5] : List Byte).length = readU32BE [0, 0, 0, 5]
    ∧ (List.replicate 14 (ReadEv.give 14)).all isGive1 = true
    ∧ 9 + readU32BE [0, 0, 0, 5] ≤ (List.replicate 14 (ReadEv.give 14)).length
    ∧ ([1, 0, 0, 0, 5, 0, 0, 48, 57] : List Byte) ≠ List.replicate 9 0
    ∧ readI32BE [0, 0, 48, 57] = 12345
    ∧ ∃ s, pollRecv RecvFut.start
          ⟨[1, 0, 0, 0, 5, 0, 0, 48, 57] ++ ([1, 2, 3, 4, 5] ++ []),
            List.replicate 14 (ReadEv.give 14)⟩
        = (s, Sum.inr (Except.ok (some ⟨1, readI32BE [0, 0, 48, 57], [1, 2, 3, 4, 5]⟩))) :=
  ⟨by decide, by decide, by decide, by decide, by decide,
    claim_C2 1 0 0 0 5 0 0 48 57 [1, 2, 3, 4, 5] [] _
      (by decide) (by decide) (by decide) (by decide)⟩

/-- A zero-byte read inside the header continuation is an end-of-file error. -/
theorem readExactPoll_eof (src : Source) (s : Source) (acc : List Byte) (r : Nat)
    (h : read1 src (r + 1) = (s, R1.bytes [])) :
    readExactPoll src.evs src.data acc (r + 1) = RxRes.err s := by
  rcases src with ⟨data, evs⟩
  cases evs with
  | nil =>
    simp only [read1, Prod.mk.injEq] at h
    rw [← h.1]
    simp [readExactPoll]
  | cons e rest =>
    cases e with
    | give k =>
      simp only [read1, Prod.mk.injEq, R1.bytes.injEq] at h
      have hm : min (r + 1) (min k data.length) = 0 := by
        rcases List.take_eq_nil_iff.mp h.2 with h0 | h0
        · exact h0
        · rw [h0]
          simp
      rw [← h.1]
      simp [readExactPoll, hm]
    | pend => simp [read1] at h
    | fail => simp [read1] at h

/-- C3: a source yielding zero bytes on the very first read of a new header
fails with the distinct `NoGoodbye` error (not the generic `Header` error);
a zero-byte read on a later header read reports the generic `Header` error
instead, so the abrupt-closure condition is reported only for the first read. -/
theorem claim_C3 :
    (∀ src s, read1 src 9 = (s, R1.bytes []) →
      pollRecv RecvFut.start src = (s, Sum.inr (Except.error Error.NoGoodbye)))
    ∧ Error.NoGoodbye ≠ Error.Header
    ∧ (∀ acc rem src s, rem ≠ 0 → read1 src rem = (s, R1.bytes []) →
      pollRecv (RecvFut.hdrRest acc rem) src
        = (s, Sum.inr (Except.error Error.Header))) := by
  refine ⟨?_, by decide, ?_⟩
  · intro src s h
    simp [pollRecv, h]
  · intro acc rem src s hrem h
    cases rem with
    | zero => exact absurd rfl hrem
    | succ r =>
      have := readExactPoll_eof src s acc r h
      simp [pollRecv, contHdr, this]

/-- Witness for C3: an immediately-closed source gives `NoGoodbye`; the same
zero-byte read while resuming a partially-read header gives `Header`. -/
theorem claim_C3_witness :
    read1 ⟨[], []⟩ 9 = (⟨[], []⟩, R1.bytes [])
    ∧ pollRecv RecvFut.start ⟨[], []⟩ = (⟨[], []⟩, Sum.inr (Except.error Error.NoGoodbye))
    ∧ pollRecv (RecvFut.hdrRest [1] 8) ⟨[], []⟩
        = (⟨[], []⟩, Sum.inr (Except.error Error.Header)) :=
  ⟨by decide, claim_C3.1 _ _ (by decide), claim_C3.2.2 [1] 8 _ _ (by decide) (by decide)⟩

/-- Every short-read script (1 to 8 bytes per read) delivers at least one byte
per read. -/
theorem all_isGive1_of_all_isShortGive (evs : List ReadEv)
    (h : evs.all isShortGive = true) : evs.all isGive1 = true := by
  rw [List.all_eq_true] at h ⊢
  intro e he
  have h2 := h e he
  cases e with
  | give k =>
    simp [isShortGive] at h2
    simp [isGive1]
    omega
  | pend => simp [isShortGive] at h2
  | fail => simp [isShortGive] at h2

/-- C4: for every source that delivers its bytes through short reads — each
read yielding between 1 and 8 bytes, in any chunking, one byte at a time
included — the decoder accumulates the 9 header bytes across the needed reads
and decoding still succeeds with the encoded packet; and a source whose data
ends before 9 header bytes (after a non-zero first read, with no suspensions
scripted) fails with the `Header` I/O error. -/
theorem claim_C4 :
    (∀ (flag l0 l1 l2 l3 i0 i1 i2 i3 : Byte) (body extra : List Byte) (evs : List ReadEv),
      body.length = readU32BE [l0, l1, l2, l3] →
      evs.all isShortGive = true →
      9 + readU32BE [l0, l1, l2, l3] ≤ evs.length →
      [flag, l0, l1, l2, l3, i0, i1, i2, i3] ≠ List.replicate 9 (0 : Byte) →
      ∃ s, pollRecv RecvFut.start
          ⟨[flag, l0, l1, l2, l3, i0, i1, i2, i3] ++ (body ++ extra), evs⟩
        = (s, Sum.inr (Except.ok (some ⟨flag, readI32BE [i0, i1, i2, i3], body⟩))))
    ∧ (∀ (data : List Byte) (k : Nat) (rest : List ReadEv),
      1 ≤ k → 1 ≤ data.length → data.length < 9 → rest.all noPend = true →
      ∃ s, pollRecv RecvFut.start ⟨data, ReadEv.give k :: rest⟩
        = (s, Sum.inr (Except.error Error.Header))) := by
  constructor
  · intro flag l0 l1 l2 l3 i0 i1 i2 i3 body extra evs hbody hshort he hhd
    exact recv_complete flag l0 l1 l2 l3 i0 i1 i2 i3 body extra evs hbody
      (all_isGive1_of_all_isShortGive evs hshort) he hhd
  · intro data k rest hk h1 h9 hnp
    exact recv_short_header data k rest hk h1 h9 hnp

/-- Witness for C4: a packet with a 2-byte body decoded from a 4+5+2-byte
chunking (padded with 1-byte reads), and a source ending after 4 header bytes
failing with `Header`. -/
theorem claim_C4_witness :
    ([9, 8] : List Byte).length = readU32BE [0, 0, 0, 2]
    ∧ ([ReadEv.give 4, ReadEv.give 5, ReadEv.give 2] ++ List.replicate 8 (ReadEv.give 1)).all
        isShortGive = true
    ∧ 9 + readU32BE [0, 0, 0, 2]
        ≤ ([ReadEv.give 4, ReadEv.give 5, ReadEv.give 2] ++ List.replicate 8 (ReadEv.give 1)).length
    ∧ ([1, 0, 0, 0, 2, 0, 0, 0, 7] : List Byte) ≠ List.replicate 9 0
    ∧ (∃ s, pollRecv RecvFut.start
          ⟨[1, 0, 0, 0, 2, 0, 0, 0, 7] ++ ([9, 8] ++ []),
            [ReadEv.give 4, ReadEv.give 5, ReadEv.give 2] ++ List.replicate 8 (ReadEv.give 1)⟩
        = (s, Sum.inr (Except.ok (some ⟨1, readI32BE [0, 0, 0, 7], [9, 8]⟩))))
    ∧ (1 ≤ 4 ∧ 1 ≤ ([1, 0, 0, 0] : List Byte).length ∧ ([1, 0, 0, 0] : List Byte).length < 9
        ∧ ([ReadEv.give 4] : List ReadEv).all noPend = true)
    ∧ (∃ s, pollRecv RecvFut.start ⟨[1, 0, 0, 0], ReadEv.give 4 :: [ReadEv.give 4]⟩
        = (s, Sum.inr (Except.error Error.Header))) :=
  ⟨by decide, by decide, by decide, by decide,
    claim_C4.1 1 0 0 0 2 0 0 0 7 [9, 8] [] _ (by decide) (by decide) (by decide) (by decide),
    ⟨by decide, by decide, by decide, by decide⟩,
    claim_C4.2 [1, 0, 0, 0] 4 [ReadEv.give 4] (by decide) (by decide) (by decide) (by decide)⟩

/-- C5: a source whose bytes begin with nine zero bytes (scripted with reads
that deliver at least one byte each, at least 9 of them) makes the first poll
report exactly one finished result (`ready none`, no packet, no error), the
decoder transitions to `Closed`, and the finished query reports true while
every later poll keeps reporting finished. -/
theorem claim_C5 (extra : List Byte) (evs : List ReadEv)
    (hall : evs.all isGive1 = true) (he : 9 ≤ evs.length) :
    ∃ s, poll_next (PacketStream.new ⟨List.replicate 9 0 ++ extra, evs⟩)
        = some (⟨State.Closed s⟩, Poll.ready none)
      ∧ is_closed ⟨State.Closed s⟩ = true
      ∧ ∀ n, polls n ⟨State.Closed s⟩
          = some (⟨State.Closed s⟩, List.replicate n (Poll.ready (none : Item))) := by
  obtain ⟨evs', h1, h2, h3⟩ := pollRecv_start_header (List.replicate 9 0 ++ extra) evs hall
    (by simp only [List.length_append, List.length_replicate]; omega) he
  have htk : (List.replicate 9 (0 : Byte) ++ extra).take 9 = List.replicate 9 0 :=
    List.take_left' (by simp)
  rw [htk] at h3
  have hah : afterHeader (List.replicate 9 0)
        (⟨(List.replicate 9 (0 : Byte) ++ extra).drop 9, evs'⟩ : Source)
      = (⟨(List.replicate 9 (0 : Byte) ++ extra).drop 9, evs'⟩,
          Sum.inr (Except.ok none)) := by
    simp [afterHeader]
  rw [hah] at h3
  refine ⟨⟨(List.replicate 9 (0 : Byte) ++ extra).drop 9, evs'⟩, ?_, rfl,
    fun n => polls_closed n _⟩
  simp only [poll_next, PacketStream.new, State.take, next, nextW, h3]

/-- Witness for C5: nine zero bytes. -/
theorem claim_C5_witness :
    (List.replicate 9 (ReadEv.give 9)).all isGive1 = true
    ∧ 9 ≤ (List.replicate 9 (ReadEv.give 9)).length
    ∧ ∃ s, poll_next (PacketStream.new
            ⟨List.replicate 9 0 ++ [], List.replicate 9 (ReadEv.give 9)⟩)
        = some (⟨State.Closed s⟩, Poll.ready none)
      ∧ is_closed ⟨State.Closed s⟩ = true
      ∧ ∀ n, polls n ⟨State.Closed s⟩
          = some (⟨State.Closed s⟩, List.replicate n (Poll.ready (none : Item))) :=
  ⟨by decide, by decide, claim_C5 [] _ (by decide) (by decide)⟩

/-- C6: whenever the in-flight decode completes with an error, `next` reports
that very error as the next item and installs `Closed`; the same holds for a
decode started from `Ready`; and once `Closed`, polling reports only finished
items forever (the error closure is permanent, nothing retried or swallowed). -/
theorem claim_C6 :
    (∀ f s s' e, pollRecv f s = (s', Sum.inr (Except.error e)) →
      next (State.Waiting f s) = some (State.Closed s', Poll.ready (some (Except.error e))))
    ∧ (∀ r s' e, pollRecv RecvFut.start r = (s', Sum.inr (Except.error e)) →
      next (State.Ready r) = some (State.Closed s', Poll.ready (some (Except.error e))))
    ∧ (∀ r n, polls n ⟨State.Closed r⟩
        = some (⟨State.Closed r⟩, List.replicate n (Poll.ready (none : Item)))) := by
  refine ⟨?_, ?_, fun r n => polls_closed n r⟩
  · intro f s s' e h
    simp [next, nextW, h]
  · intro r s' e h
    simp [next, nextW, h]

/-- Witness for C6: an I/O failure on the first header read is reported as
`Header` and closes the decoder. -/
theorem claim_C6_witness :
    pollRecv RecvFut.start ⟨[1, 2, 3], [ReadEv.fail]⟩
      = (⟨[1, 2, 3], []⟩, Sum.inr (Except.error Error.Header))
    ∧ next (State.Ready ⟨[1, 2, 3], [ReadEv.fail]⟩)
        = some (State.Closed ⟨[1, 2, 3], []⟩,
            Poll.ready (some (Except.error Error.Header))) :=
  ⟨by decide, claim_C6.2.1 _ _ _ (by decide)⟩

/-- C7: from `Closed`, any number of polls reports only finished items, leaves
the state `Closed` with the very same source (so no read event is ever
consumed from it). -/
theorem claim_C7 (n : Nat) (r : Source) :
    polls n ⟨State.Closed r⟩
      = some (⟨State.Closed r⟩, List.replicate n (Poll.ready (none : Item))) :=
  polls_closed n r

/-- Witness for C7: three polls on a closed decoder. -/
theorem claim_C7_witness :
    polls 3 ⟨State.Closed ⟨[1], [ReadEv.pend]⟩⟩
      = some (⟨State.Closed ⟨[1], [ReadEv.pend]⟩⟩,
          List.replicate 3 (Poll.ready (none : Item))) :=
  claim_C7 3 ⟨[1], [ReadEv.pend]⟩

/-- C8: a completed non-goodbye header declaring body length 0 produces a
packet with an empty body immediately: the source is returned untouched (no
body read is issued at all, so nothing can block), and the result is ready. -/
theorem claim_C8 (head : List Byte) (src : Source)
    (h0 : bodyLen head = 0) (hz : head ≠ List.replicate 9 0) :
    afterHeader head src
      = (src, Sum.inr (Except.ok (some ⟨head.getD 0 0, packetId head, []⟩))) := by
  unfold afterHeader
  rw [if_neg hz]
  unfold contBody
  rw [h0]
  simp only [readExactPoll]
  rfl

/-- Witness for C8: header with length field zero. -/
theorem claim_C8_witness :
    bodyLen [1, 0, 0, 0, 0, 0, 0, 0, 7] = 0
    ∧ ([1, 0, 0, 0, 0, 0, 0, 0, 7] : List Byte) ≠ List.replicate 9 0
    ∧ afterHeader [1, 0, 0, 0, 0, 0, 0, 0, 7] ⟨[5], [ReadEv.pend]⟩
        = (⟨[5], [ReadEv.pend]⟩, Sum.inr (Except.ok (some ⟨1, 7, []⟩))) :=
  ⟨by decide, by decide, claim_C8 [1, 0, 0, 0, 0, 0, 0, 0, 7] ⟨[5], [ReadEv.pend]⟩
    (by decide) (by decide)⟩

/-- C9: `into_inner` returns the source from `Ready` or `Closed`, and is the
fatal panic (modelled `none`) from `Waiting` or `Invalid`. -/
theorem claim_C9 :
    (∀ r, into_inner ⟨State.Ready r⟩ = some r)
    ∧ (∀ r, into_inner ⟨State.Closed r⟩ = some r)
    ∧ (∀ f s, into_inner ⟨State.Waiting f s⟩ = none)
    ∧ into_inner ⟨State.Invalid⟩ = none :=
  ⟨fun _ => rfl, fun _ => rfl, fun _ _ => rfl, rfl⟩

/-- Witness for C9: each state at a concrete source. -/
theorem claim_C9_witness :
    into_inner ⟨State.Ready ⟨[1], []⟩⟩ = some ⟨[1], []⟩
    ∧ into_inner ⟨State.Closed ⟨[1], []⟩⟩ = some ⟨[1], []⟩
    ∧ into_inner ⟨State.Waiting RecvFut.start ⟨[1], []⟩⟩ = none
    ∧ into_inner ⟨State.Invalid⟩ = none :=
  ⟨claim_C9.1 _, claim_C9.2.1 _, claim_C9.2.2.1 _ _, claim_C9.2.2.2⟩

/-- C10: every decoder state reachable from a fresh decoder through `poll_next`
is `Ready`, `Waiting` or `Closed` — never the `Invalid` placeholder — and on
any such state `poll_next` returns (does not hit the fatal branch) and installs
a non-`Invalid` state before returning. -/
theorem claim_C10 (ps : PacketStream) (h : Reachable ps) :
    ps.state ≠ State.Invalid
    ∧ ∃ ps' p, poll_next ps = some (ps', p) ∧ ps'.state ≠ State.Invalid := by
  have hne := reachable_ne_invalid ps h
  obtain ⟨st', p, hn, hne'⟩ := next_total_ne_invalid ps.state hne
  refine ⟨hne, ⟨st'⟩, p, ?_, hne'⟩
  simp [poll_next, State.take, hn]

/-- Witness for C10: the fresh decoder. -/
theorem claim_C10_witness :
    (PacketStream.new ⟨[], []⟩).state ≠ State.Invalid
    ∧ ∃ ps' p, poll_next (PacketStream.new ⟨[], []⟩) = some (ps', p)
        ∧ ps'.state ≠ State.Invalid :=
  claim_C10 _ (Reachable.init ⟨[], []⟩)

end SsbPacketStream
